import Mathlib

/-!
Shallow embedding of the Secret-Santa (Manitto) matching service in
`src/backend/app.py`, together with proofs of the specification claims.

Modelling conventions:
* Python `int` is `Int`, Python `str` is `String`.
* Python's global Mersenne-Twister random source is modelled as a state
  `RandState`: an arbitrary stream of naturals plus a position.  The value
  `random.seed(s)` installs is modelled by `seedState s`; the specific
  stream values never matter for any claim (all shuffle theorems are
  proved for every stream), only that seeding is a pure function of the
  seed.  `random.shuffle` is CPython's Fisher-Yates loop (indices
  `n-1` down to `1`, `j = randbelow(i+1)`), with `randbelow k` modelled
  as the next stream value reduced `% k`.
* Exceptions become `Except`, HTTP handlers become pure functions from a
  `Store` (the two JSON files) to a response and a new `Store`.
-/

/-- Participant record (`@dataclass Participant` in `src/backend/app.py`). -/
structure Participant where
  table : Int
  name : String
  email : String
  birthdate : String
deriving DecidableEq, Repr

/-- Match record (`@dataclass Match`): giver (`manitto`) and recipient (`manitti`). -/
structure GiftMatch where
  table : Int
  manitto_name : String
  manitto_email : String
  manitti_name : String
  manitti_email : String
deriving DecidableEq, Repr

/-- Python `str.strip()`: drop whitespace from both ends (modelled over the
character list so that it evaluates by `decide`/`rfl`). -/
def pyStrip (s : String) : String :=
  ⟨((s.data.dropWhile Char.isWhitespace).reverse.dropWhile Char.isWhitespace).reverse⟩

/-- Python `str.lower()` (ASCII-adequate model). -/
def pyLower (s : String) : String :=
  ⟨s.data.map Char.toLower⟩

/-- `normalize_email`: strip whitespace and lowercase. -/
def normalize_email (email : String) : String := pyLower (pyStrip email)

/-- `normalize_name`: strip whitespace only. -/
def normalize_name (name : String) : String := pyStrip name

/-- `normalize_birthdate`: strip whitespace only; the value stays opaque. -/
def normalize_birthdate (birthdate : String) : String := pyStrip birthdate

/-- One step of `group_by_table`'s loop: `grouped.setdefault(p.table, []).append(p)`.
The association list keeps keys in first-appearance order, exactly like a
Python (3.7+) dict. -/
def insertByTable (grouped : List (Int × List Participant)) (p : Participant) :
    List (Int × List Participant) :=
  match grouped with
  | [] => [(p.table, [p])]
  | (t, ms) :: rest =>
    if t = p.table then (t, ms ++ [p]) :: rest
    else (t, ms) :: insertByTable rest p

/-- `group_by_table`: partition participants by `table`, keys in first-appearance
order, members in encounter order. -/
def group_by_table (participants : List Participant) : List (Int × List Participant) :=
  participants.foldl insertByTable []

/-- Global random-source state: a stream of raw random naturals and the
position of the next value to be consumed. -/
structure RandState where
  stream : Nat → Nat
  pos : Nat

/-- Stand-in for the stream of values produced by Python's Mersenne Twister
after `random.seed(seed)`.  Only its determinism in `seed` matters for the
claims, never the concrete values, so a simple concrete mixing function is
used. -/
def mtStream (seed : Int) : Nat → Nat :=
  fun n => (seed.natAbs + n + 1) * 2654435761 % 4294967296

/-- State of the global random source right after `random.seed(seed)`. -/
def seedState (seed : Int) : RandState := ⟨mtStream seed, 0⟩

/-- Default participant used only as the junk value of in-range `getD` reads. -/
def defaultParticipant : Participant := ⟨0, "", "", ""⟩

/-- Swap the elements at positions `i` and `j` (Python `x[i], x[j] = x[j], x[i]`);
out-of-range indices leave the list unchanged (never hit by the shuffle). -/
def listSwap {α : Type} (l : List α) (i j : Nat) : List α :=
  match l[i]?, l[j]? with
  | some a, some b => (l.set i b).set j a
  | _, _ => l

/-- Fisher-Yates loop of CPython's `random.shuffle`: the last argument is the
current index `i`, counting down to `1`; each step draws `j = randbelow (i+1)`
from the stream and swaps positions `i` and `j`.  Returns the shuffled list
and the next unconsumed stream position. -/
def shuffleGo {α : Type} (stream : Nat → Nat) : List α → Nat → Nat → List α × Nat
  | l, pos, 0 => (l, pos)
  | l, pos, i+1 => shuffleGo stream (listSwap l (i+1) (stream pos % (i+2))) (pos+1) i

/-- Model of `random.shuffle(l)` starting at stream position `pos`. -/
def pyShuffle {α : Type} (stream : Nat → Nat) (l : List α) (pos : Nat) : List α × Nat :=
  shuffleGo stream l pos (l.length - 1)

/-- Build one `Match` row from a giver and a recipient (the `Match(...)`
constructor call in `make_matches`). -/
def mkMatch (t : Int) (a b : Participant) : GiftMatch :=
  ⟨t, a.name, a.email, b.name, b.email⟩

/-- Giver/recipient pairs of one shuffled group: the reciprocal pair for size 2,
otherwise position `idx` gives to position `(idx+1) % size`. -/
def cyclePairs (shuffled : List Participant) : List (Participant × Participant) :=
  if shuffled.length = 2 then
    [(shuffled.getD 0 defaultParticipant, shuffled.getD 1 defaultParticipant),
     (shuffled.getD 1 defaultParticipant, shuffled.getD 0 defaultParticipant)]
  else
    (List.range shuffled.length).map fun idx =>
      (shuffled.getD idx defaultParticipant,
       shuffled.getD ((idx + 1) % shuffled.length) defaultParticipant)

/-- Match rows produced for one group with table id `t` from its shuffled order. -/
def matchGroup (t : Int) (shuffled : List Participant) : List GiftMatch :=
  (cyclePairs shuffled).map fun pr => mkMatch t pr.1 pr.2

/-- Message of the `ValueError` raised for a group with fewer than 2 members. -/
def groupSizeError (t : Int) : String :=
  "테이블 " ++ toString t ++ " 인원이 2명 미만입니다."

/-- Loop of `make_matches` over the grouped participants, threading the stream
position: reject any group of fewer than 2 members, otherwise shuffle the
group's copy and emit its cyclic pairs. -/
def matchGroups (stream : Nat → Nat) :
    List (Int × List Participant) → Nat → Except String (List GiftMatch)
  | [], _ => .ok []
  | (t, members) :: rest, pos =>
    if members.length < 2 then .error (groupSizeError t)
    else
      let sp := pyShuffle stream members pos
      match matchGroups stream rest sp.2 with
      | .ok ms => .ok (matchGroup t sp.1 ++ ms)
      | .error e => .error e

/-- `make_matches(participants, seed)`: reseed the global random source when a
seed is supplied, group by table, and pair every group. -/
def make_matches (participants : List Participant) (seed : Option Int)
    (rng : RandState) : Except String (List GiftMatch) :=
  let rng' := match seed with
    | some s => seedState s
    | none => rng
  matchGroups rng'.stream (group_by_table participants) rng'.pos

example :
    make_matches
      [⟨1, "A", "a@x.com", "900101"⟩, ⟨1, "B", "b@x.com", "900202"⟩] none ⟨fun _ => 0, 0⟩
      = .ok [⟨1, "B", "b@x.com", "A", "a@x.com"⟩, ⟨1, "A", "a@x.com", "B", "b@x.com"⟩] := by
  rfl

example :
    (make_matches
      [⟨1, "A", "a", "1"⟩, ⟨1, "B", "b", "2"⟩, ⟨1, "C", "c", "3"⟩, ⟨2, "D", "d", "4"⟩]
      none ⟨fun _ => 0, 0⟩).isOk = false := by
  decide

/-! ### HTTP layer: JSON values, Python coercions, the two JSON files, handlers -/

/-- JSON value as decoded by Flask's `request.get_json()` into a Python object.
JSON floats are outside the model (no claim involves them). -/
inductive Json where
  | null
  | bool (b : Bool)
  | int (n : Int)
  | str (s : String)
  | arr (items : List Json)
  | obj (fields : List (String × Json))

/-- Python exception kinds relevant to the handlers. -/
inductive PyErr where
  | keyError (k : String)
  | valueError
  | typeError
deriving DecidableEq, Repr

/-- Python `repr` of a JSON-shaped value (coarse model: the exact text of
container reprs decides no claim; scalars are exact). -/
def pyRepr : Json → String
  | .null => "None"
  | .bool b => if b then "True" else "False"
  | .int n => toString n
  | .str s => "'" ++ s ++ "'"
  | .arr items =>
      "[" ++ String.intercalate ", " (items.attach.map fun x => pyRepr x.1) ++ "]"
  | .obj fields =>
      "\x7b" ++
        String.intercalate ", "
          (fields.attach.map fun x => "'" ++ x.1.1 ++ "': " ++ pyRepr x.1.2) ++
      "\x7d"
decreasing_by
  · have h := List.sizeOf_lt_of_mem x.2
    simp only [Json.arr.sizeOf_spec]
    omega
  · have h1 : sizeOf x.1 < sizeOf fields := List.sizeOf_lt_of_mem x.2
    have h2 : sizeOf x.1.2 < sizeOf x.1 := by
      obtain ⟨a, b⟩ := x.1
      simp only [Prod.mk.sizeOf_spec]
      omega
    simp only [Json.obj.sizeOf_spec]
    omega

/-- Python `str(v)`: identity on strings, `repr` otherwise (exact for the
scalar cases the handlers meet). -/
def pyStr : Json → String
  | .str s => s
  | v => pyRepr v

/-- Digits-only decimal reader used by the `int(str)` model. -/
def decDigits? (cs : List Char) : Option Nat :=
  cs.foldl
    (fun acc c =>
      match acc with
      | none => none
      | some n => if c.isDigit then some (n * 10 + (c.toNat - 48)) else none)
    (some 0)

/-- Python `int(s)` on a string: strip whitespace, optional sign, decimal
digits; anything else raises `ValueError`. -/
def strToInt? (s : String) : Option Int :=
  let t := pyStrip s
  let signDigits : Int × List Char :=
    match t.data with
    | '-' :: rest => (-1, rest)
    | '+' :: rest => (1, rest)
    | l => (1, l)
  if signDigits.2.isEmpty then none
  else
    match decDigits? signDigits.2 with
    | some n => some (signDigits.1 * n)
    | none => none

/-- Python `int(v)` on a JSON-shaped value: ints pass through, bools coerce,
strings parse (`ValueError` on failure), every other type raises `TypeError`. -/
def pyInt : Json → Except PyErr Int
  | .int n => .ok n
  | .bool b => .ok (if b then 1 else 0)
  | .str s =>
    match strToInt? s with
    | some n => .ok n
    | none => .error .valueError
  | _ => .error .typeError

/-- Python `row[k]` subscript: `KeyError` when the key is absent from a dict,
`TypeError` when `row` is not a dict at all.  Duplicate JSON keys keep the
last occurrence, as `json.loads` does. -/
def pyGetItem (row : Json) (k : String) : Except PyErr Json :=
  match row with
  | .obj fields =>
    match (fields.filter fun kv => kv.1 == k).getLast? with
    | some kv => .ok kv.2
    | none => .error (.keyError k)
  | _ => .error .typeError

/-- Coarse rendering of an exception for the upload 400 body (`f"... \x7bexc\x7d"`);
its exact text decides no claim. -/
def pyErrText : PyErr → String
  | .keyError k => "'" ++ k ++ "'"
  | .valueError => "invalid literal for int() with base 10"
  | .typeError => "TypeError"

/-- The two JSON files (`participants.json`, `matches.json`) as a record store. -/
structure Store where
  participants : List Participant
  matchList : List GiftMatch
deriving DecidableEq, Repr

/-- `load_participants()`: rows re-enter through `int` / `str` /
`normalize_email` / `normalize_birthdate`; on well-typed stored rows only the
two normalizations are observable. -/
def load_participants (stored : List Participant) : List Participant :=
  stored.map fun p =>
    ⟨p.table, p.name, normalize_email p.email, normalize_birthdate p.birthdate⟩

/-- `load_matches()`: emails re-enter through `normalize_email`. -/
def load_matches (stored : List GiftMatch) : List GiftMatch :=
  stored.map fun m =>
    ⟨m.table, m.manitto_name, normalize_email m.manitto_email,
     m.manitti_name, normalize_email m.manitti_email⟩

/-- HTTP outcome of a handler: a response with a status and JSON body, or an
unhandled Python exception escaping the handler (Flask then answers 500). -/
inductive Resp where
  | http (status : Nat) (body : Json)
  | crash (e : PyErr)

/-- Error body helper: `jsonify(\x7b"error": msg\x7d)`. -/
def errBody (msg : String) : Json := .obj [("error", .str msg)]

/-- Parse one uploaded row into a `Participant`; field accesses and coercions
happen in the source's argument order: `table`, `name`, `email`, `birthdate`. -/
def parseRow (row : Json) : Except PyErr Participant := do
  let tv ← pyGetItem row "table"
  let t ← pyInt tv
  let nv ← pyGetItem row "name"
  let ev ← pyGetItem row "email"
  let bv ← pyGetItem row "birthdate"
  pure ⟨t, pyStrip (pyStr nv), normalize_email (pyStr ev), normalize_birthdate (pyStr bv)⟩

/-- Parse all uploaded rows; the first exception aborts the loop. -/
def parseRows : List Json → Except PyErr (List Participant)
  | [] => .ok []
  | row :: rest => do
    let p ← parseRow row
    let ps ← parseRows rest
    pure (p :: ps)

/-- `admin_upload` handler: non-list body is a 400; a `KeyError` or
`ValueError` while parsing rows is a 400; a `TypeError` is NOT caught by the
`except (KeyError, ValueError)` clause and escapes; on success the participant
file is replaced and the match file cleared. -/
def admin_upload (payload : Json) (store : Store) : Resp × Store :=
  match payload with
  | .arr rows =>
    match parseRows rows with
    | .ok ps =>
      (.http 200 (.obj [("message", .str "업로드 완료"), ("count", .int (ps.length : Int))]),
       ⟨ps, []⟩)
    | .error .typeError => (.crash .typeError, store)
    | .error e =>
      (.http 400 (errBody ("잘못된 입력 형식: " ++ pyErrText e)), store)
  | _ => (.http 400 (errBody "리스트 형태의 데이터를 보내주세요."), store)

/-- `admin_match` handler: `body.get("seed")` is `None` when missing or null;
`int(seed)` raises `ValueError` (caught, 400) or `TypeError` (uncaught); then
participants are loaded, emptiness rejected, `make_matches` run, and only on
success is the match file replaced. -/
def admin_match (seedv : Option Json) (rng : RandState) (store : Store) : Resp × Store :=
  let parsedSeed : Except PyErr (Option Int) :=
    match seedv with
    | none => .ok none
    | some .null => .ok none
    | some v =>
      match pyInt v with
      | .ok n => .ok (some n)
      | .error e => .error e
  match parsedSeed with
  | .error .valueError => (.http 400 (errBody "seed는 숫자여야 합니다."), store)
  | .error e => (.crash e, store)
  | .ok seed_val =>
    let participants := load_participants store.participants
    if participants.isEmpty then
      (.http 400 (errBody "참가자 데이터가 없습니다. 먼저 업로드하세요."), store)
    else
      match make_matches participants seed_val rng with
      | .error msg => (.http 400 (errBody msg), store)
      | .ok ms =>
        (.http 200 (.obj [("message", .str "매칭 완료"), ("count", .int (ms.length : Int))]),
         ⟨store.participants, ms⟩)

/-- Serialize one match row (`asdict(m)`). -/
def matchToJson (m : GiftMatch) : Json :=
  .obj [("table", .int m.table),
        ("manitto_name", .str m.manitto_name),
        ("manitto_email", .str m.manitto_email),
        ("manitti_name", .str m.manitti_name),
        ("manitti_email", .str m.manitti_email)]

/-- `admin_results` handler: the loaded match file as a JSON array. -/
def admin_results (store : Store) : Resp :=
  .http 200 (.arr ((load_matches store.matchList).map matchToJson))

/-- Fixed gift-guide message interpolating the recipient's name. -/
def lookupMessage (manitti_name : String) : String :=
  "당신의 마니띠는 " ++ manitti_name ++ "님입니다.\n\n" ++
  "마니띠를 떠올리며, 정성과 센스를 담은 선물을 준비해 주세요!\n" ++
  "마니띠에게 본인이 마니또임을 공개해서는 안 됩니다! 비밀~ 🤫\n" ++
  "[선물 준비 가이드]\n" ++
  "금액: 15,000원 ~ 20,000원\n" ++
  "❌ 현금 / 기프트카드 등 무성의한 선물은 피해주세요 ❌\n" ++
  "작은 선물이지만, 한 해를 함께 보낸 동료에게 따뜻한 마음이 전해지는 시간이 되길 바랍니다 ✨\n" ++
  "받는 사람이 기분 좋게 웃을 수 있는 선물이라면 무엇이든 OK입니다!"

/-- Success body of `lookup`. -/
def lookupOkBody (m : GiftMatch) : Json :=
  .obj [("your_name", .str m.manitto_name),
        ("table", .int m.table),
        ("manitti_name", .str m.manitti_name),
        ("manitti_email", .str m.manitti_email),
        ("message", .str (lookupMessage m.manitti_name))]

/-- `lookup` handler over string-or-missing inputs (a non-string `name` would
crash on `.strip()` in the source; no claim involves that path).  Checks run
in source order: falsy inputs, roster membership by normalized name (first
match wins), birthdate credential, empty match file, then the first match row
whose giver name normalizes to the input name. -/
def lookup (nameOpt birthdateOpt : Option String) (store : Store) : Resp :=
  match nameOpt, birthdateOpt with
  | some name, some birthdate =>
    if name = "" ∨ birthdate = "" then
      .http 400 (errBody "name과 birthdate(생년월일)가 필요합니다.")
    else
      let name_norm := normalize_name name
      let birthdate_norm := normalize_birthdate birthdate
      match (load_participants store.participants).find?
          (fun p => normalize_name p.name == name_norm) with
      | none => .http 404 (errBody "참가자 명단에서 이름을 찾을 수 없습니다.")
      | some participant =>
        if participant.birthdate ≠ birthdate_norm then
          .http 403 (errBody "생년월일이 일치하지 않습니다.")
        else if (load_matches store.matchList).isEmpty then
          .http 400 (errBody "아직 매칭이 진행되지 않았습니다.")
        else
          match (load_matches store.matchList).find?
              (fun m => normalize_name m.manitto_name == name_norm) with
          | some m => .http 200 (lookupOkBody m)
          | none => .http 404 (errBody "해당 이름을 찾을 수 없습니다.")
  | _, _ => .http 400 (errBody "name과 birthdate(생년월일)가 필요합니다.")

/-! ### Heap model: Python list objects with identity, for the frame claim.
`make_matches` is re-embedded one level lower, with every Python list as a
heap object, so that "the input list is not modified" is an actual statement
about mutation: `random.shuffle` writes in place, but only ever to the fresh
object allocated by `members.copy()`. -/

/-- Heap of list-of-Participant objects; the cell index is the reference. -/
structure Heap where
  cells : List (List Participant)

/-- Dereference; out-of-range reads (never reached) yield `[]`. -/
def Heap.read (h : Heap) (r : Nat) : List Participant := h.cells.getD r []

/-- In-place update of the list object behind `r`. -/
def Heap.write (h : Heap) (r : Nat) (v : List Participant) : Heap := ⟨h.cells.set r v⟩

/-- Allocate a fresh list object at the end of the heap. -/
def Heap.alloc (h : Heap) (v : List Participant) : Nat × Heap :=
  (h.cells.length, ⟨h.cells ++ [v]⟩)

/-- Association-list lookup of a table's group object. -/
def lookupTable : List (Int × Nat) → Int → Option Nat
  | [], _ => none
  | (t, r) :: rest, k => if t = k then some r else lookupTable rest k

/-- One step of `group_by_table` at the heap level:
`grouped.setdefault(p.table, []).append(p)`. -/
def insertByTableRef (h : Heap) (grouped : List (Int × Nat)) (p : Participant) :
    List (Int × Nat) × Heap :=
  match lookupTable grouped p.table with
  | some r => (grouped, h.write r (h.read r ++ [p]))
  | none =>
    let rh := h.alloc []
    (grouped ++ [(p.table, rh.1)], rh.2.write rh.1 (rh.2.read rh.1 ++ [p]))

/-- `group_by_table` at the heap level: group lists are fresh objects and the
input list is only read. -/
def groupByTableRef (h : Heap) (input : Nat) : List (Int × Nat) × Heap :=
  (h.read input).foldl (fun acc p => insertByTableRef acc.2 acc.1 p) ([], h)

/-- Fisher-Yates loop mutating the list object behind `r` in place. -/
def shuffleGoRef (stream : Nat → Nat) (h : Heap) (r : Nat) (pos : Nat) : Nat → Heap × Nat
  | 0 => (h, pos)
  | i+1 =>
    let h' := h.write r (listSwap (h.read r) (i+1) (stream pos % (i+2)))
    shuffleGoRef stream h' r (pos+1) i

/-- `random.shuffle` on the object behind `r`. -/
def pyShuffleRef (stream : Nat → Nat) (h : Heap) (r : Nat) (pos : Nat) : Heap × Nat :=
  shuffleGoRef stream h r pos ((h.read r).length - 1)

/-- Matching loop at the heap level: `shuffled = members.copy()` allocates a
fresh object, and it is the only object the shuffle mutates. -/
def matchGroupsRef (stream : Nat → Nat) (h : Heap) :
    List (Int × Nat) → Nat → Except String (List GiftMatch) × Heap
  | [], _ => (.ok [], h)
  | (t, mref) :: rest, pos =>
    if (h.read mref).length < 2 then (.error (groupSizeError t), h)
    else
      let sh := h.alloc (h.read mref)
      let hp := pyShuffleRef stream sh.2 sh.1 pos
      let shuffled := hp.1.read sh.1
      match matchGroupsRef stream hp.1 rest hp.2 with
      | (.ok ms, h3) => (.ok (matchGroup t shuffled ++ ms), h3)
      | (.error e, h3) => (.error e, h3)

/-- `make_matches` at the heap level, taking the participants list by
reference.  The seed only selects the stream, which is irrelevant to the
frame property, so the stream is a direct argument. -/
def make_matches_ref (stream : Nat → Nat) (h : Heap) (input : Nat) (pos : Nat) :
    Except String (List GiftMatch) × Heap :=
  let gh := groupByTableRef h input
  matchGroupsRef stream gh.2 gh.1 pos

/-- Heap agreement below `n`: the heap has grown to at least `n` cells and
every object with reference below `n` is unchanged. -/
def Pres (n : Nat) (h h' : Heap) : Prop :=
  n ≤ h'.cells.length ∧ ∀ r, r < n → h'.read r = h.read r

/-! ### Identity projections used by the claim statements -/

/-- Identity of a participant as it is observable in a match row. -/
def participantKey (p : Participant) : Int × String × String := (p.table, p.name, p.email)

/-- Giver identity of a match row. -/
def manittoKey (m : GiftMatch) : Int × String × String :=
  (m.table, m.manitto_name, m.manitto_email)

/-- Recipient identity of a match row. -/
def manittiKey (m : GiftMatch) : Int × String × String :=
  (m.table, m.manitti_name, m.manitti_email)

/-- Contact pair of a participant; two participants with the same contact
pair are the same person as far as a match row can show. -/
def contactOf (p : Participant) : String × String := (p.name, p.email)

/-- Members of all groups, concatenated in group order. -/
def groupMembers (gs : List (Int × List Participant)) : List Participant :=
  gs.flatMap Prod.snd

/-- Invariant of the grouping loop: member tables match their key, keys are
distinct, and no group is empty. -/
def GroupsWF (gs : List (Int × List Participant)) : Prop :=
  (∀ g ∈ gs, ∀ p ∈ g.2, p.table = g.1) ∧ (gs.map Prod.fst).Nodup ∧ ∀ g ∈ gs, g.2 ≠ []

/-! ### Permutation facts about the shuffle -/

/-- `make_matches` always runs the grouped loop over some stream/position. -/
theorem make_matches_eq (ps : List Participant) (seed : Option Int) (rng : RandState) :
    ∃ stream pos, make_matches ps seed rng = matchGroups stream (group_by_table ps) pos := by
  cases seed with
  | none => exact ⟨rng.stream, rng.pos, rfl⟩
  | some s => exact ⟨(seedState s).stream, (seedState s).pos, rfl⟩

theorem setSelf_eq {α : Type} (l : List α) (i : Nat) (h : i < l.length) :
    l.set i l[i] = l := by
  apply List.ext_getElem?
  intro n
  rcases eq_or_ne i n with rfl | hne
  · rw [List.getElem?_set_self h, List.getElem?_eq_getElem h]
  · rw [List.getElem?_set_ne hne]

theorem listSwap_perm {α : Type} [DecidableEq α] (l : List α) (i j : Nat) :
    (listSwap l i j).Perm l := by
  unfold listSwap
  cases hi : l[i]? with
  | none => cases hj : l[j]? <;> exact List.Perm.refl l
  | some a =>
    cases hj : l[j]? with
    | none => exact List.Perm.refl l
    | some b =>
      obtain ⟨hi', hia⟩ := List.getElem?_eq_some.mp hi
      obtain ⟨hj', hjb⟩ := List.getElem?_eq_some.mp hj
      show ((l.set i b).set j a).Perm l
      rcases eq_or_ne i j with rfl | hij
      · rw [List.set_set]
        have hab : b = a := by rw [← hia, ← hjb]
        subst hab
        rw [← hjb, setSelf_eq]
      · rw [List.perm_iff_count]
        intro x
        have hjlen : j < (l.set i b).length := by simpa using hj'
        rw [List.count_set a x (l.set i b) j hjlen]
        rw [List.count_set b x l i hi']
        have hgj : (l.set i b)[j] = b := by
          have h1 : (l.set i b)[j]? = some b := by rw [List.getElem?_set_ne hij, hj]
          have h2 : (l.set i b)[j]? = some ((l.set i b)[j]) :=
            List.getElem?_eq_getElem hjlen
          rw [h1] at h2
          exact (Option.some.inj h2).symm
        rw [hgj, hia]
        have hmem : a ∈ l := hia ▸ List.getElem_mem hi'
        by_cases hax : a = x
        · have hpos : 0 < List.count x l := List.count_pos_iff.mpr (hax ▸ hmem)
          by_cases hbx : b = x <;> simp [hax, hbx] <;> omega
        · by_cases hbx : b = x <;> simp [hax, hbx]

theorem shuffleGo_perm {α : Type} [DecidableEq α] (stream : Nat → Nat) :
    ∀ (i : Nat) (l : List α) (pos : Nat), (shuffleGo stream l pos i).1.Perm l := by
  intro i
  induction i with
  | zero => intro l pos; exact List.Perm.refl l
  | succ k ih =>
    intro l pos
    exact (ih _ _).trans (listSwap_perm l (k+1) (stream pos % (k+2)))

theorem pyShuffle_perm {α : Type} [DecidableEq α] (stream : Nat → Nat)
    (l : List α) (pos : Nat) : (pyShuffle stream l pos).1.Perm l :=
  shuffleGo_perm stream (l.length - 1) l pos

theorem pyShuffle_length {α : Type} [DecidableEq α] (stream : Nat → Nat)
    (l : List α) (pos : Nat) : (pyShuffle stream l pos).1.length = l.length :=
  (pyShuffle_perm stream l pos).length_eq

/-! ### Structure of the table grouping -/

theorem insertByTable_members (gs : List (Int × List Participant)) (p : Participant) :
    (groupMembers (insertByTable gs p)).Perm (groupMembers gs ++ [p]) := by
  induction gs with
  | nil => simp [insertByTable, groupMembers]
  | cons g rest ih =>
    obtain ⟨t, ms⟩ := g
    by_cases h : t = p.table
    · simp only [insertByTable, if_pos h, groupMembers, List.flatMap_cons]
      rw [List.append_assoc, List.append_assoc]
      exact List.Perm.append_left ms List.perm_append_comm
    · simp only [insertByTable, if_neg h, groupMembers, List.flatMap_cons]
      rw [List.append_assoc]
      exact List.Perm.append_left ms ih

theorem foldl_insertByTable_members (ps : List Participant) :
    ∀ gs, (groupMembers (ps.foldl insertByTable gs)).Perm (groupMembers gs ++ ps) := by
  induction ps with
  | nil => intro gs; simp
  | cons p rest ih =>
    intro gs
    rw [List.foldl_cons]
    refine (ih (insertByTable gs p)).trans ?_
    refine ((insertByTable_members gs p).append_right rest).trans ?_
    rw [List.append_assoc]
    exact List.Perm.refl _

/-- The grouping partitions the participant list (up to order). -/
theorem group_by_table_members_perm (ps : List Participant) :
    (groupMembers (group_by_table ps)).Perm ps := by
  simpa [groupMembers] using foldl_insertByTable_members ps []

theorem insertByTable_keys (gs : List (Int × List Participant)) (p : Participant) :
    (insertByTable gs p).map Prod.fst = gs.map Prod.fst ∨
      ((insertByTable gs p).map Prod.fst = gs.map Prod.fst ++ [p.table] ∧
        p.table ∉ gs.map Prod.fst) := by
  induction gs with
  | nil => right; simp [insertByTable]
  | cons g rest ih =>
    obtain ⟨t, ms⟩ := g
    by_cases h : t = p.table
    · left; simp [insertByTable, if_pos h]
    · rcases ih with h1 | ⟨h1, h2⟩
      · left; simp [insertByTable, if_neg h, h1]
      · right
        constructor
        · simp [insertByTable, if_neg h, h1]
        · simp only [List.map_cons, List.mem_cons]
          rintro (heq | hmem)
          · exact h heq.symm
          · exact h2 hmem

theorem insertByTable_wf (gs : List (Int × List Participant)) (p : Participant)
    (hwf : GroupsWF gs) : GroupsWF (insertByTable gs p) := by
  obtain ⟨htab, hkeys, hne⟩ := hwf
  refine ⟨?_, ?_, ?_⟩
  · clear hkeys hne
    induction gs with
    | nil =>
      intro g hg q hq
      simp [insertByTable] at hg
      subst hg
      simp at hq
      subst hq
      rfl
    | cons g0 rest ih =>
      obtain ⟨t, ms⟩ := g0
      by_cases h : t = p.table
      · intro g hg q hq
        simp only [insertByTable, if_pos h, List.mem_cons] at hg
        rcases hg with rfl | hg
        · simp only [List.mem_append, List.mem_singleton] at hq
          rcases hq with hq | rfl
          · exact htab (t, ms) (by simp) q hq
          · exact h.symm
        · exact htab g (List.mem_cons_of_mem _ hg) q hq
      · intro g hg q hq
        simp only [insertByTable, if_neg h, List.mem_cons] at hg
        rcases hg with rfl | hg
        · exact htab (t, ms) (by simp) q hq
        · exact ih (fun g' hg' => htab g' (List.mem_cons_of_mem _ hg')) g hg q hq
  · rcases insertByTable_keys gs p with h1 | ⟨h1, h2⟩
    · rw [h1]; exact hkeys
    · rw [h1, List.nodup_append]
      exact ⟨hkeys, List.nodup_singleton _, by
        intro x hx hx'
        simp only [List.mem_singleton] at hx'
        subst hx'
        exact h2 hx⟩
  · clear htab hkeys
    induction gs with
    | nil =>
      intro g hg
      simp [insertByTable] at hg
      subst hg
      simp
    | cons g0 rest ih =>
      obtain ⟨t, ms⟩ := g0
      by_cases h : t = p.table
      · intro g hg
        simp only [insertByTable, if_pos h, List.mem_cons] at hg
        rcases hg with rfl | hg
        · simp
        · exact hne g (List.mem_cons_of_mem _ hg)
      · intro g hg
        simp only [insertByTable, if_neg h, List.mem_cons] at hg
        rcases hg with rfl | hg
        · exact hne (t, ms) (by simp)
        · exact ih (fun g' hg' => hne g' (List.mem_cons_of_mem _ hg')) g hg

/-! ### Structure of one group's cyclic pairing -/

theorem range_map_getD {α : Type} (s : List α) (d : α) :
    (List.range s.length).map (fun i => s.getD i d) = s := by
  apply List.ext_getElem
  · simp
  · intro n h1 h2
    simp only [List.getElem_map, List.getElem_range]
    exact List.getD_eq_getElem s d h2

/-- The givers of one group's pairs are exactly the shuffled order. -/
theorem cyclePairs_fst (s : List Participant) :
    (cyclePairs s).map Prod.fst = s := by
  unfold cyclePairs
  by_cases hl : s.length = 2
  · obtain ⟨a, b, rfl⟩ := List.length_eq_two.mp hl
    simp
  · rw [if_neg hl, List.map_map]
    exact range_map_getD s defaultParticipant

/-- The recipients of one group's pairs are the shuffled order rotated by
one, hence a permutation of the group. -/
theorem cyclePairs_snd_perm (s : List Participant) :
    ((cyclePairs s).map Prod.snd).Perm s := by
  unfold cyclePairs
  by_cases hl : s.length = 2
  · obtain ⟨a, b, rfl⟩ := List.length_eq_two.mp hl
    simpa using List.Perm.swap a b []
  · rw [if_neg hl, List.map_map]
    have hrot : (List.range s.length).map
        (Prod.snd ∘ fun idx =>
          (s.getD idx defaultParticipant,
           s.getD ((idx + 1) % s.length) defaultParticipant)) = s.rotate 1 := by
      apply List.ext_getElem
      · simp
      · intro n h1 h2
        have hn : n < s.length := by simpa using h1
        have hpos : 0 < s.length := by omega
        have hmod : (n + 1) % s.length < s.length := Nat.mod_lt _ hpos
        simp only [List.getElem_map, List.getElem_range, Function.comp_apply]
        rw [List.getElem_rotate]
        exact List.getD_eq_getElem s defaultParticipant hmod
    rw [hrot]
    exact List.rotate_perm s 1

/-- Successor modulo `n` moves every position when `n ≥ 2`. -/
theorem succ_mod_ne (n i : Nat) (h2 : 2 ≤ n) (hi : i < n) : (i + 1) % n ≠ i := by
  rcases Nat.lt_or_ge (i + 1) n with h | h
  · rw [Nat.mod_eq_of_lt h]; omega
  · have hin : i + 1 = n := by omega
    rw [hin, Nat.mod_self]; omega

/-- No pair of one group is a self-pair when the group's contact pairs are
pairwise distinct. -/
theorem cyclePairs_no_self (s : List Participant) (h2 : 2 ≤ s.length)
    (hnd : (s.map contactOf).Nodup) :
    ∀ pr ∈ cyclePairs s, contactOf pr.1 ≠ contactOf pr.2 := by
  intro pr hpr
  unfold cyclePairs at hpr
  by_cases hl : s.length = 2
  · rw [if_pos hl] at hpr
    obtain ⟨a, b, rfl⟩ := List.length_eq_two.mp hl
    have hab : contactOf a ≠ contactOf b := by
      simp only [List.map_cons, List.map_nil, List.nodup_cons, List.mem_singleton,
        List.not_mem_nil, not_false_eq_true, List.nodup_nil, and_true] at hnd
      exact hnd
    simp only [List.getD_cons_zero, List.getD_cons_succ, List.mem_cons,
      List.mem_singleton] at hpr
    rcases hpr with rfl | hpr | hpr
    · exact hab
    · subst hpr
      exact fun h => hab h.symm
    · exact absurd hpr (List.not_mem_nil pr)
  · rw [if_neg hl] at hpr
    simp only [List.mem_map, List.mem_range] at hpr
    obtain ⟨i, hi, rfl⟩ := hpr
    have hpos : 0 < s.length := by omega
    have hmod : (i + 1) % s.length < s.length := Nat.mod_lt _ hpos
    have hne : (i + 1) % s.length ≠ i := succ_mod_ne _ _ h2 hi
    rw [List.getD_eq_getElem s _ hi, List.getD_eq_getElem s _ hmod]
    intro heq
    have hmi : i < (s.map contactOf).length := by simpa using hi
    have hmj : (i + 1) % s.length < (s.map contactOf).length := by simpa using hmod
    have hmap : (s.map contactOf).get ⟨i, hmi⟩ =
        (s.map contactOf).get ⟨(i + 1) % s.length, hmj⟩ := by
      simp only [List.get_eq_getElem, List.getElem_map]
      exact heq
    have hij := hnd.get_inj_iff.mp hmap
    have hval : i = (i + 1) % s.length := congrArg Fin.val hij
    exact hne hval.symm

/-- Every row emitted for a group carries that group's table id. -/
theorem matchGroup_table (t : Int) (s : List Participant) :
    ∀ m ∈ matchGroup t s, m.table = t := by
  intro m hm
  simp only [matchGroup, List.mem_map] at hm
  obtain ⟨pr, _, rfl⟩ := hm
  rfl

/-- The giver keys of one group's rows are the shuffled order keyed by `t`. -/
theorem matchGroup_manittoKey (t : Int) (s : List Participant) :
    (matchGroup t s).map manittoKey = s.map fun p => (t, p.name, p.email) := by
  unfold matchGroup
  rw [List.map_map]
  have hcomp : (manittoKey ∘ fun pr => mkMatch t pr.1 pr.2) =
      (fun p => (t, p.name, p.email)) ∘ Prod.fst := by
    funext pr; rfl
  rw [hcomp, ← List.map_map, cyclePairs_fst]

/-- The recipient keys of one group's rows are a permutation of the same list. -/
theorem matchGroup_manittiKey (t : Int) (s : List Participant) :
    ((matchGroup t s).map manittiKey).Perm (s.map fun p => (t, p.name, p.email)) := by
  unfold matchGroup
  rw [List.map_map]
  have hcomp : (manittiKey ∘ fun pr => mkMatch t pr.1 pr.2) =
      (fun p => (t, p.name, p.email)) ∘ Prod.snd := by
    funext pr; rfl
  rw [hcomp, ← List.map_map]
  exact (cyclePairs_snd_perm s).map _

/-- No row of one group is a self-gift when the group's contact pairs are
pairwise distinct. -/
theorem matchGroup_no_self (t : Int) (s : List Participant) (h2 : 2 ≤ s.length)
    (hnd : (s.map contactOf).Nodup) :
    ∀ m ∈ matchGroup t s,
      ¬(m.manitto_name = m.manitti_name ∧ m.manitto_email = m.manitti_email) := by
  intro m hm
  simp only [matchGroup, List.mem_map] at hm
  obtain ⟨pr, hpr, rfl⟩ := hm
  have hno := cyclePairs_no_self s h2 hnd pr hpr
  intro hcon
  apply hno
  simp only [mkMatch] at hcon
  simp [contactOf, Prod.ext_iff]
  exact hcon

/-- The grouping produced by `group_by_table` is well-formed. -/
theorem group_by_table_wf (ps : List Participant) : GroupsWF (group_by_table ps) := by
  suffices h : ∀ gs, GroupsWF gs → GroupsWF (ps.foldl insertByTable gs) by
    exact h [] ⟨by simp, by simp, by simp⟩
  induction ps with
  | nil => intro gs hwf; exact hwf
  | cons p rest ih =>
    intro gs hwf
    rw [List.foldl_cons]
    exact ih _ (insertByTable_wf gs p hwf)

/-! ### Behaviour of the matching loop over all groups -/

theorem matchGroups_ok_manitto (stream : Nat → Nat) :
    ∀ (gs : List (Int × List Participant)) (pos : Nat) (ms : List GiftMatch),
      (∀ g ∈ gs, ∀ p ∈ g.2, p.table = g.1) →
      matchGroups stream gs pos = .ok ms →
      (ms.map manittoKey).Perm ((groupMembers gs).map participantKey) := by
  intro gs
  induction gs with
  | nil =>
    intro pos ms _ h
    unfold matchGroups at h
    cases h
    simp [groupMembers]
  | cons g rest ih =>
    obtain ⟨t, members⟩ := g
    intro pos ms htab h
    unfold matchGroups at h
    by_cases hlen : members.length < 2
    · rw [if_pos hlen] at h; cases h
    · rw [if_neg hlen] at h
      simp only [] at h
      cases hrec : matchGroups stream rest (pyShuffle stream members pos).2 with
      | error e => rw [hrec] at h; cases h
      | ok ms' =>
        rw [hrec] at h
        have hms : matchGroup t (pyShuffle stream members pos).1 ++ ms' = ms := by
          injection h
        subst hms
        rw [List.map_append]
        have hperm := pyShuffle_perm stream members pos
        have h1 : ((matchGroup t (pyShuffle stream members pos).1).map manittoKey).Perm
            (members.map participantKey) := by
          rw [matchGroup_manittoKey]
          have hsame : (pyShuffle stream members pos).1.map (fun p => (t, p.name, p.email)) =
              (pyShuffle stream members pos).1.map participantKey := by
            apply List.map_congr_left
            intro p hp
            have hpt : p.table = t :=
              htab (t, members) (by simp) p (hperm.mem_iff.mp hp)
            simp [participantKey, hpt]
          rw [hsame]
          exact hperm.map participantKey
        have h2 := ih _ _ (fun g hg => htab g (List.mem_cons_of_mem _ hg)) hrec
        rw [groupMembers, List.flatMap_cons, List.map_append]
        exact h1.append h2

theorem matchGroups_ok_manitti (stream : Nat → Nat) :
    ∀ (gs : List (Int × List Participant)) (pos : Nat) (ms : List GiftMatch),
      (∀ g ∈ gs, ∀ p ∈ g.2, p.table = g.1) →
      matchGroups stream gs pos = .ok ms →
      (ms.map manittiKey).Perm ((groupMembers gs).map participantKey) := by
  intro gs
  induction gs with
  | nil =>
    intro pos ms _ h
    unfold matchGroups at h
    cases h
    simp [groupMembers]
  | cons g rest ih =>
    obtain ⟨t, members⟩ := g
    intro pos ms htab h
    unfold matchGroups at h
    by_cases hlen : members.length < 2
    · rw [if_pos hlen] at h; cases h
    · rw [if_neg hlen] at h
      simp only [] at h
      cases hrec : matchGroups stream rest (pyShuffle stream members pos).2 with
      | error e => rw [hrec] at h; cases h
      | ok ms' =>
        rw [hrec] at h
        have hms : matchGroup t (pyShuffle stream members pos).1 ++ ms' = ms := by
          injection h
        subst hms
        rw [List.map_append]
        have hperm := pyShuffle_perm stream members pos
        have h1 : ((matchGroup t (pyShuffle stream members pos).1).map manittiKey).Perm
            (members.map participantKey) := by
          refine (matchGroup_manittiKey t _).trans ?_
          have hsame : (pyShuffle stream members pos).1.map (fun p => (t, p.name, p.email)) =
              (pyShuffle stream members pos).1.map participantKey := by
            apply List.map_congr_left
            intro p hp
            have hpt : p.table = t :=
              htab (t, members) (by simp) p (hperm.mem_iff.mp hp)
            simp [participantKey, hpt]
          rw [hsame]
          exact hperm.map participantKey
        have h2 := ih _ _ (fun g hg => htab g (List.mem_cons_of_mem _ hg)) hrec
        rw [groupMembers, List.flatMap_cons, List.map_append]
        exact h1.append h2

theorem matchGroups_ok_no_self (stream : Nat → Nat) :
    ∀ (gs : List (Int × List Participant)) (pos : Nat) (ms : List GiftMatch),
      (∀ g ∈ gs, (g.2.map contactOf).Nodup) →
      matchGroups stream gs pos = .ok ms →
      ∀ m ∈ ms, ¬(m.manitto_name = m.manitti_name ∧ m.manitto_email = m.manitti_email) := by
  intro gs
  induction gs with
  | nil =>
    intro pos ms _ h
    unfold matchGroups at h
    cases h
    simp
  | cons g rest ih =>
    obtain ⟨t, members⟩ := g
    intro pos ms hnd h
    unfold matchGroups at h
    by_cases hlen : members.length < 2
    · rw [if_pos hlen] at h; cases h
    · rw [if_neg hlen] at h
      simp only [] at h
      cases hrec : matchGroups stream rest (pyShuffle stream members pos).2 with
      | error e => rw [hrec] at h; cases h
      | ok ms' =>
        rw [hrec] at h
        have hms : matchGroup t (pyShuffle stream members pos).1 ++ ms' = ms := by
          injection h
        subst hms
        intro m hm
        rw [List.mem_append] at hm
        rcases hm with hm | hm
        · have hperm := pyShuffle_perm stream members pos
          have h2 : 2 ≤ (pyShuffle stream members pos).1.length := by
            rw [pyShuffle_length]; omega
          have hnd' : ((pyShuffle stream members pos).1.map contactOf).Nodup :=
            ((hperm.map contactOf).nodup_iff).mpr (hnd (t, members) (by simp))
          exact matchGroup_no_self t _ h2 hnd' m hm
        · exact ih _ _ (fun g hg => hnd g (List.mem_cons_of_mem _ hg)) hrec m hm

/-- Every row of a successful run carries some group's table id. -/
theorem matchGroups_tables (stream : Nat → Nat) :
    ∀ (gs : List (Int × List Participant)) (pos : Nat) (ms : List GiftMatch),
      matchGroups stream gs pos = .ok ms →
      ∀ m ∈ ms, m.table ∈ gs.map Prod.fst := by
  intro gs
  induction gs with
  | nil =>
    intro pos ms h
    unfold matchGroups at h
    cases h
    simp
  | cons g rest ih =>
    obtain ⟨t, members⟩ := g
    intro pos ms h
    unfold matchGroups at h
    by_cases hlen : members.length < 2
    · rw [if_pos hlen] at h; cases h
    · rw [if_neg hlen] at h
      simp only [] at h
      cases hrec : matchGroups stream rest (pyShuffle stream members pos).2 with
      | error e => rw [hrec] at h; cases h
      | ok ms' =>
        rw [hrec] at h
        have hms : matchGroup t (pyShuffle stream members pos).1 ++ ms' = ms := by
          injection h
        subst hms
        intro m hm
        rw [List.mem_append] at hm
        rcases hm with hm | hm
        · rw [matchGroup_table t _ m hm]; simp
        · exact List.mem_cons_of_mem _ (ih _ _ hrec m hm)

/-- All groups big enough means the matching loop succeeds. -/
theorem matchGroups_ok_of_sizes (stream : Nat → Nat) :
    ∀ (gs : List (Int × List Participant)) (pos : Nat),
      (∀ g ∈ gs, 2 ≤ g.2.length) →
      ∃ ms, matchGroups stream gs pos = .ok ms := by
  intro gs
  induction gs with
  | nil => intro pos _; exact ⟨[], rfl⟩
  | cons g rest ih =>
    obtain ⟨t, members⟩ := g
    intro pos hsz
    have hlen : ¬members.length < 2 := by
      have hsz2 : 2 ≤ members.length := by simpa using hsz (t, members) (by simp)
      omega
    obtain ⟨ms', hms'⟩ := ih (pyShuffle stream members pos).2
      (fun g hg => hsz g (List.mem_cons_of_mem _ hg))
    refine ⟨matchGroup t (pyShuffle stream members pos).1 ++ ms', ?_⟩
    unfold matchGroups
    rw [if_neg hlen]
    simp [hms']

/-- A too-small group makes the matching loop fail, with the error naming an
offending table. -/
theorem matchGroups_error (stream : Nat → Nat) :
    ∀ (gs : List (Int × List Participant)) (pos : Nat),
      (∃ g ∈ gs, g.2.length < 2) →
      ∃ tBad membersBad, (tBad, membersBad) ∈ gs ∧ membersBad.length < 2 ∧
        matchGroups stream gs pos = .error (groupSizeError tBad) := by
  intro gs
  induction gs with
  | nil =>
    intro pos h
    obtain ⟨g, hg, _⟩ := h
    exact absurd hg (List.not_mem_nil g)
  | cons g rest ih =>
    obtain ⟨t, members⟩ := g
    intro pos hbad
    by_cases hlen : members.length < 2
    · refine ⟨t, members, by simp, hlen, ?_⟩
      unfold matchGroups
      rw [if_pos hlen]
    · obtain ⟨gBad, hgBad, hgBadLen⟩ := hbad
      have hgBadRest : gBad ∈ rest := by
        rcases List.mem_cons.mp hgBad with rfl | h
        · exact absurd (by simpa using hgBadLen) hlen
        · exact h
      obtain ⟨tB, mB, hmem, hlenB, herr⟩ :=
        ih (pyShuffle stream members pos).2 ⟨gBad, hgBadRest, hgBadLen⟩
      refine ⟨tB, mB, List.mem_cons_of_mem _ hmem, hlenB, ?_⟩
      unfold matchGroups
      rw [if_neg hlen]
      simp [herr]

/-- On success, the rows with a group's table id are exactly that group's
block, produced from some shuffle of its members. -/
theorem matchGroups_filter (stream : Nat → Nat) :
    ∀ (gs : List (Int × List Participant)) (pos : Nat) (ms : List GiftMatch),
      (gs.map Prod.fst).Nodup →
      matchGroups stream gs pos = .ok ms →
      ∀ t members, (t, members) ∈ gs →
        ∃ shufflePos,
          ms.filter (fun m => m.table == t) =
            matchGroup t (pyShuffle stream members shufflePos).1 := by
  intro gs
  induction gs with
  | nil =>
    intro pos ms _ h t members hmem
    exact absurd hmem (List.not_mem_nil _)
  | cons g rest ih =>
    obtain ⟨t0, members0⟩ := g
    intro pos ms hnd h t members hmem
    unfold matchGroups at h
    by_cases hlen : members0.length < 2
    · rw [if_pos hlen] at h; cases h
    · rw [if_neg hlen] at h
      simp only [] at h
      cases hrec : matchGroups stream rest (pyShuffle stream members0 pos).2 with
      | error e => rw [hrec] at h; cases h
      | ok ms' =>
        rw [hrec] at h
        have hms : matchGroup t0 (pyShuffle stream members0 pos).1 ++ ms' = ms := by
          injection h
        subst hms
        rw [List.filter_append]
        have hnd' := hnd
        simp only [List.map_cons, List.nodup_cons] at hnd'
        rcases List.mem_cons.mp hmem with heq | hrest
        · have ht : t = t0 := by
            have := congrArg Prod.fst heq
            simpa using this
          have hmembers : members = members0 := by
            have := congrArg Prod.snd heq
            simpa using this
          subst ht
          subst hmembers
          have hblock : (matchGroup t (pyShuffle stream members pos).1).filter
              (fun m => m.table == t) = matchGroup t (pyShuffle stream members pos).1 := by
            rw [List.filter_eq_self]
            intro m hm
            simp [matchGroup_table t _ m hm]
          have hrest0 : ms'.filter (fun m => m.table == t) = [] := by
            rw [List.filter_eq_nil_iff]
            intro m hm
            have := matchGroups_tables stream rest _ _ hrec m hm
            simp only [beq_iff_eq]
            intro hmt
            rw [hmt] at this
            exact hnd'.1 this
          rw [hblock, hrest0, List.append_nil]
          exact ⟨pos, rfl⟩
        · have htne : t ≠ t0 := by
            intro heqt
            apply hnd'.1
            subst heqt
            exact List.mem_map_of_mem Prod.fst hrest
          have hblock : (matchGroup t0 (pyShuffle stream members0 pos).1).filter
              (fun m => m.table == t) = [] := by
            rw [List.filter_eq_nil_iff]
            intro m hm
            simp only [beq_iff_eq]
            rw [matchGroup_table t0 _ m hm]
            exact fun h => htne h.symm
          obtain ⟨sp, hsp⟩ := ih _ _ hnd'.2 hrec t members hrest
          rw [hblock, hsp, List.nil_append]
          exact ⟨sp, rfl⟩

/-! ### Claim theorems -/

/-- C1 counterexample: a participant list whose every group has size ≥ 2 but
which contains the same person twice at one table makes `make_matches`
succeed with a match whose recipient is the same person as the giver, so the
claim as stated (no hypothesis about distinctness) is false. -/
theorem C1_counterexample :
    (∀ g ∈ group_by_table
        [⟨1, "A", "a@x.com", "900101"⟩, ⟨1, "A", "a@x.com", "900101"⟩], 2 ≤ g.2.length) ∧
    ∃ ms, make_matches
        [⟨1, "A", "a@x.com", "900101"⟩, ⟨1, "A", "a@x.com", "900101"⟩] none ⟨fun _ => 0, 0⟩
        = .ok ms ∧
      ∃ m ∈ ms, m.manitto_name = m.manitti_name ∧ m.manitto_email = m.manitti_email := by
  refine ⟨by decide,
    [⟨1, "A", "a@x.com", "A", "a@x.com"⟩, ⟨1, "A", "a@x.com", "A", "a@x.com"⟩],
    rfl, ?_⟩
  decide

/-- C1 (amended): if every group has size ≥ 2 and no two members of a group
share both name and email, `make_matches` succeeds, its rows' giver keys are
a permutation of the participant keys (exactly one outgoing match per
participant), and no row's recipient is the same person as its giver. -/
theorem C1_one_outgoing_no_self_gift
    (ps : List Participant) (seed : Option Int) (rng : RandState)
    (hsize : ∀ g ∈ group_by_table ps, 2 ≤ g.2.length)
    (hdistinct : ∀ g ∈ group_by_table ps, (g.2.map contactOf).Nodup) :
    ∃ ms, make_matches ps seed rng = .ok ms ∧
      (ms.map manittoKey).Perm (ps.map participantKey) ∧
      ∀ m ∈ ms, ¬(m.manitto_name = m.manitti_name ∧ m.manitto_email = m.manitti_email) := by
  obtain ⟨stream, pos, heq⟩ := make_matches_eq ps seed rng
  obtain ⟨ms, hok⟩ := matchGroups_ok_of_sizes stream (group_by_table ps) pos hsize
  refine ⟨ms, by rw [heq, hok], ?_, ?_⟩
  · exact (matchGroups_ok_manitto stream _ pos ms (group_by_table_wf ps).1 hok).trans
      ((group_by_table_members_perm ps).map participantKey)
  · exact matchGroups_ok_no_self stream _ pos ms hdistinct hok

/-- C1 witness: the amended theorem applied to a concrete two-person table. -/
theorem C1_witness :
    ∃ ms, make_matches
        [⟨1, "Alice", "a@x.com", "900101"⟩, ⟨1, "Bob", "b@x.com", "900202"⟩]
        none ⟨fun _ => 0, 0⟩ = .ok ms ∧
      (ms.map manittoKey).Perm
        ([⟨1, "Alice", "a@x.com", "900101"⟩, ⟨1, "Bob", "b@x.com", "900202"⟩].map
          participantKey) ∧
      ∀ m ∈ ms, ¬(m.manitto_name = m.manitti_name ∧ m.manitto_email = m.manitti_email) :=
  C1_one_outgoing_no_self_gift
    [⟨1, "Alice", "a@x.com", "900101"⟩, ⟨1, "Bob", "b@x.com", "900202"⟩]
    none ⟨fun _ => 0, 0⟩ (by decide) (by decide)

/-- C9: if every group has size ≥ 2, `make_matches` succeeds and its rows'
recipient keys are a permutation of the participant keys — each participant
receives exactly one incoming match, the dual of the outgoing property. -/
theorem C9_one_incoming
    (ps : List Participant) (seed : Option Int) (rng : RandState)
    (hsize : ∀ g ∈ group_by_table ps, 2 ≤ g.2.length) :
    ∃ ms, make_matches ps seed rng = .ok ms ∧
      (ms.map manittiKey).Perm (ps.map participantKey) := by
  obtain ⟨stream, pos, heq⟩ := make_matches_eq ps seed rng
  obtain ⟨ms, hok⟩ := matchGroups_ok_of_sizes stream (group_by_table ps) pos hsize
  refine ⟨ms, by rw [heq, hok], ?_⟩
  exact (matchGroups_ok_manitti stream _ pos ms (group_by_table_wf ps).1 hok).trans
    ((group_by_table_members_perm ps).map participantKey)

/-- C9 witness: the theorem applied to a concrete three-person table. -/
theorem C9_witness :
    ∃ ms, make_matches
        [⟨7, "Ann", "ann@x.com", "1"⟩, ⟨7, "Ben", "ben@x.com", "2"⟩,
         ⟨7, "Cid", "cid@x.com", "3"⟩] (some 42) ⟨fun _ => 0, 0⟩ = .ok ms ∧
      (ms.map manittiKey).Perm
        ([⟨7, "Ann", "ann@x.com", "1"⟩, ⟨7, "Ben", "ben@x.com", "2"⟩,
          ⟨7, "Cid", "cid@x.com", "3"⟩].map participantKey) :=
  C9_one_incoming
    [⟨7, "Ann", "ann@x.com", "1"⟩, ⟨7, "Ben", "ben@x.com", "2"⟩,
     ⟨7, "Cid", "cid@x.com", "3"⟩] (some 42) ⟨fun _ => 0, 0⟩ (by decide)

/-- C4: with a seed supplied, `make_matches` is a pure function of the list
and the seed — `random.seed(seed)` overwrites whatever state the global
random source was left in, so two calls with identical list and seed produce
identical matches in identical order across all groups. -/
theorem C4_seed_deterministic (ps : List Participant) (seed : Int)
    (rng1 rng2 : RandState) :
    make_matches ps (some seed) rng1 = make_matches ps (some seed) rng2 := rfl

/-- C2: for a group of size ≥ 3, the rows `make_matches` produces for that
group are exactly one block in which position `i` of the shuffled order gives
to position `(i+1) mod size`; following those links from any start position
visits every position exactly once (the visited positions over `size` steps
are a permutation of all positions) before returning to the start. -/
theorem C2_single_cycle (ps : List Participant) (seed : Option Int) (rng : RandState)
    (t : Int) (members : List Participant) (ms : List GiftMatch)
    (hmem : (t, members) ∈ group_by_table ps)
    (h3 : 3 ≤ members.length)
    (hok : make_matches ps seed rng = .ok ms) :
    ∃ s : List Participant, s.Perm members ∧ s.length = members.length ∧
      ms.filter (fun m => m.table == t) =
        (List.range s.length).map (fun i =>
          mkMatch t (s.getD i defaultParticipant)
            (s.getD ((i + 1) % s.length) defaultParticipant)) ∧
      ∀ start < s.length,
        (((List.range s.length).map fun k => (start + k) % s.length).Perm
          (List.range s.length)) ∧
        (start + s.length) % s.length = start := by
  obtain ⟨stream, pos, heq⟩ := make_matches_eq ps seed rng
  rw [heq] at hok
  obtain ⟨sp, hsp⟩ :=
    matchGroups_filter stream _ pos ms (group_by_table_wf ps).2.1 hok t members hmem
  refine ⟨(pyShuffle stream members sp).1, pyShuffle_perm stream members sp,
    pyShuffle_length stream members sp, ?_, ?_⟩
  · rw [hsp]
    unfold matchGroup cyclePairs
    rw [if_neg (by rw [pyShuffle_length]; omega), List.map_map]
    rfl
  · intro start hstart
    have hn : 0 < (pyShuffle stream members sp).1.length := by
      rw [pyShuffle_length]; omega
    constructor
    · have hnd : (((List.range (pyShuffle stream members sp).1.length).map
          fun k => (start + k) % (pyShuffle stream members sp).1.length)).Nodup := by
        refine List.Nodup.map_on ?_ (List.nodup_range _)
        intro x hx y hy hxy
        rw [List.mem_range] at hx hy
        have hmx : x % (pyShuffle stream members sp).1.length =
            y % (pyShuffle stream members sp).1.length :=
          Nat.ModEq.add_left_cancel' start hxy
        rw [← Nat.mod_eq_of_lt hx, ← Nat.mod_eq_of_lt hy]
        exact hmx
      have hsub : ((List.range (pyShuffle stream members sp).1.length).map
          fun k => (start + k) % (pyShuffle stream members sp).1.length) ⊆
          List.range (pyShuffle stream members sp).1.length := by
        intro z hz
        obtain ⟨k, _, rfl⟩ := List.mem_map.mp hz
        exact List.mem_range.mpr (Nat.mod_lt _ hn)
      refine (List.subperm_of_subset hnd hsub).perm_of_length_le ?_
      simp
    · rw [Nat.add_mod_right]
      exact Nat.mod_eq_of_lt hstart

/-- C2 witness: a four-person table, concrete stream. -/
theorem C2_witness :
    ∃ s : List Participant,
      s.Perm [⟨3, "P", "p@x", "1"⟩, ⟨3, "Q", "q@x", "2"⟩, ⟨3, "R", "r@x", "3"⟩,
              ⟨3, "S", "s@x", "4"⟩] ∧
      s.length = 4 ∧
      ((make_matches
          [⟨3, "P", "p@x", "1"⟩, ⟨3, "Q", "q@x", "2"⟩, ⟨3, "R", "r@x", "3"⟩,
           ⟨3, "S", "s@x", "4"⟩] none ⟨fun n => n, 0⟩).toOption.getD []).filter
          (fun m => m.table == 3) =
        (List.range s.length).map (fun i =>
          mkMatch 3 (s.getD i defaultParticipant)
            (s.getD ((i + 1) % s.length) defaultParticipant)) ∧
      ∀ start < s.length,
        (((List.range s.length).map fun k => (start + k) % s.length).Perm
          (List.range s.length)) ∧
        (start + s.length) % s.length = start := by
  obtain ⟨s, h1, h2, h3, h4⟩ := C2_single_cycle
    [⟨3, "P", "p@x", "1"⟩, ⟨3, "Q", "q@x", "2"⟩, ⟨3, "R", "r@x", "3"⟩,
     ⟨3, "S", "s@x", "4"⟩] none ⟨fun n => n, 0⟩ 3
    [⟨3, "P", "p@x", "1"⟩, ⟨3, "Q", "q@x", "2"⟩, ⟨3, "R", "r@x", "3"⟩,
     ⟨3, "S", "s@x", "4"⟩] _ (by decide) (by decide) rfl
  exact ⟨s, h1, by rw [h2]; rfl, by simpa using h3, h4⟩

/-- C3: a group of exactly two members `[a, b]` always yields exactly the two
reciprocal rows `a→b` and `b→a` (in one of the two orders), whatever the
shuffle outcome. -/
theorem C3_two_member_group (ps : List Participant) (seed : Option Int)
    (rng : RandState) (t : Int) (a b : Participant) (ms : List GiftMatch)
    (hmem : (t, [a, b]) ∈ group_by_table ps)
    (hok : make_matches ps seed rng = .ok ms) :
    ms.filter (fun m => m.table == t) = [mkMatch t a b, mkMatch t b a] ∨
    ms.filter (fun m => m.table == t) = [mkMatch t b a, mkMatch t a b] := by
  obtain ⟨stream, pos, heq⟩ := make_matches_eq ps seed rng
  rw [heq] at hok
  obtain ⟨sp, hsp⟩ :=
    matchGroups_filter stream _ pos ms (group_by_table_wf ps).2.1 hok t [a, b] hmem
  rcases Nat.mod_two_eq_zero_or_one (stream sp) with hj | hj
  · right
    rw [hsp]
    have hs : (pyShuffle stream [a, b] sp).1 = [b, a] := by
      simp [pyShuffle, shuffleGo, listSwap, hj]
    rw [hs]
    rfl
  · left
    rw [hsp]
    have hs : (pyShuffle stream [a, b] sp).1 = [a, b] := by
      simp [pyShuffle, shuffleGo, listSwap, hj]
    rw [hs]
    rfl

/-- C3 witness: a two-person table next to another table, concrete stream. -/
theorem C3_witness :
    ((make_matches
        [⟨1, "A", "a@x", "1"⟩, ⟨2, "C", "c@x", "3"⟩, ⟨2, "D", "d@x", "4"⟩,
         ⟨1, "B", "b@x", "2"⟩] none ⟨fun _ => 1, 0⟩).toOption.getD []).filter
        (fun m => m.table == 1) =
      [mkMatch 1 ⟨1, "A", "a@x", "1"⟩ ⟨1, "B", "b@x", "2"⟩,
       mkMatch 1 ⟨1, "B", "b@x", "2"⟩ ⟨1, "A", "a@x", "1"⟩] ∨
    ((make_matches
        [⟨1, "A", "a@x", "1"⟩, ⟨2, "C", "c@x", "3"⟩, ⟨2, "D", "d@x", "4"⟩,
         ⟨1, "B", "b@x", "2"⟩] none ⟨fun _ => 1, 0⟩).toOption.getD []).filter
        (fun m => m.table == 1) =
      [mkMatch 1 ⟨1, "B", "b@x", "2"⟩ ⟨1, "A", "a@x", "1"⟩,
       mkMatch 1 ⟨1, "A", "a@x", "1"⟩ ⟨1, "B", "b@x", "2"⟩] := by
  have h := C3_two_member_group
    [⟨1, "A", "a@x", "1"⟩, ⟨2, "C", "c@x", "3"⟩, ⟨2, "D", "d@x", "4"⟩,
     ⟨1, "B", "b@x", "2"⟩] none ⟨fun _ => 1, 0⟩ 1
    ⟨1, "A", "a@x", "1"⟩ ⟨1, "B", "b@x", "2"⟩ _ (by decide) rfl
  simpa using h

/-- C5: when some table of the stored participants has fewer than two
members, the match endpoint answers 400 with the `ValueError` message naming
an offending table, returns no match list, and leaves the store — in
particular the match file — unchanged. -/
theorem C5_small_group_aborts (store : Store) (seedInt : Option Int)
    (rng : RandState) (t : Int) (members : List Participant)
    (hmem : (t, members) ∈ group_by_table (load_participants store.participants))
    (hsmall : members.length < 2) :
    ∃ tBad membersBad,
      (tBad, membersBad) ∈ group_by_table (load_participants store.participants) ∧
      membersBad.length < 2 ∧
      admin_match (seedInt.map Json.int) rng store =
        (.http 400 (errBody (groupSizeError tBad)), store) := by
  have hne : members ≠ [] := (group_by_table_wf _).2.2 (t, members) hmem
  obtain ⟨p, hp⟩ := List.exists_mem_of_ne_nil members hne
  have hpg : p ∈ groupMembers (group_by_table (load_participants store.participants)) :=
    List.mem_flatMap.mpr ⟨(t, members), hmem, hp⟩
  have hpmem : p ∈ load_participants store.participants :=
    (group_by_table_members_perm _).mem_iff.mp hpg
  have hnonempty : (load_participants store.participants).isEmpty = false := by
    rw [List.isEmpty_eq_false]
    intro h0
    rw [h0] at hpmem
    exact List.not_mem_nil p hpmem
  obtain ⟨stream, pos, heq⟩ :=
    make_matches_eq (load_participants store.participants) seedInt rng
  obtain ⟨tB, mB, hmemB, hlenB, herr⟩ :=
    matchGroups_error stream (group_by_table (load_participants store.participants)) pos
      ⟨(t, members), hmem, hsmall⟩
  refine ⟨tB, mB, hmemB, hlenB, ?_⟩
  have hmm : make_matches (load_participants store.participants) seedInt rng
      = .error (groupSizeError tB) := by rw [heq, herr]
  cases seedInt with
  | none => simp [admin_match, hnonempty, hmm]
  | some s => simp [admin_match, hnonempty, hmm, pyInt]

/-- C5 witness: a store holding one single-member table. -/
theorem C5_witness :
    ∃ tBad membersBad,
      (tBad, membersBad) ∈ group_by_table (load_participants [⟨1, "A", "a@x", "1"⟩]) ∧
      membersBad.length < 2 ∧
      admin_match none ⟨fun _ => 0, 0⟩ ⟨[⟨1, "A", "a@x", "1"⟩], []⟩ =
        (.http 400 (errBody (groupSizeError tBad)), ⟨[⟨1, "A", "a@x", "1"⟩], []⟩) := by
  simpa using C5_small_group_aborts ⟨[⟨1, "A", "a@x", "1"⟩], []⟩ none ⟨fun _ => 0, 0⟩
    1 [⟨1, "A", "a@x", "1"⟩] (List.mem_singleton.mpr rfl) (by decide)

/-- C6: every successful upload replaces the participant file with the parsed
snapshot and clears the match file, after which the results endpoint returns
an empty array (until matching is run again). -/
theorem C6_upload_resets (rows : List Json) (ps : List Participant) (store : Store)
    (hparse : parseRows rows = .ok ps) :
    admin_upload (.arr rows) store =
      (.http 200 (.obj [("message", .str "업로드 완료"), ("count", .int (ps.length : Int))]),
       ⟨ps, []⟩) ∧
    admin_results ⟨ps, []⟩ = .http 200 (.arr []) := by
  constructor
  · simp only [admin_upload]
    rw [hparse]
  · rfl

/-- C6 witness: a concrete upload over a store with stale participants and
matches. -/
theorem C6_witness :
    admin_upload
        (.arr [.obj [("table", .int 1), ("name", .str " Alice "),
          ("email", .str " A@X.com "), ("birthdate", .str " 900101 ")]])
        ⟨[⟨9, "Old", "o@x", "0"⟩], [⟨9, "Old", "o@x", "Old", "o@x"⟩]⟩ =
      (.http 200 (.obj [("message", .str "업로드 완료"),
        ("count", .int (([⟨1, "Alice", "a@x.com", "900101"⟩] : List Participant).length : Int))]),
       ⟨[⟨1, "Alice", "a@x.com", "900101"⟩], []⟩) ∧
    admin_results ⟨[⟨1, "Alice", "a@x.com", "900101"⟩], []⟩ = .http 200 (.arr []) :=
  C6_upload_resets
    [.obj [("table", .int 1), ("name", .str " Alice "),
      ("email", .str " A@X.com "), ("birthdate", .str " 900101 ")]]
    [⟨1, "Alice", "a@x.com", "900101"⟩]
    ⟨[⟨9, "Old", "o@x", "0"⟩], [⟨9, "Old", "o@x", "Old", "o@x"⟩]⟩ (by rfl)

/-- C7: the lookup endpoint checks, in order: missing/empty inputs (400),
roster membership by normalized name (404), birthdate credential of the
first name match (403), empty match file (400), and otherwise answers 200
with the first stored match row whose giver name normalizes to the input
name — which exists whenever the stored matches are a successful
`make_matches` run over the stored participants. -/
theorem C7_lookup_contract (store : Store) :
    (∀ nameOpt birthdateOpt : Option String,
      (nameOpt = none ∨ birthdateOpt = none ∨ nameOpt = some "" ∨ birthdateOpt = some "") →
      lookup nameOpt birthdateOpt store =
        .http 400 (errBody "name과 birthdate(생년월일)가 필요합니다.")) ∧
    (∀ n b : String, n ≠ "" → b ≠ "" →
      (load_participants store.participants).find?
          (fun p => normalize_name p.name == normalize_name n) = none →
      lookup (some n) (some b) store =
        .http 404 (errBody "참가자 명단에서 이름을 찾을 수 없습니다.")) ∧
    (∀ (n b : String) (p : Participant), n ≠ "" → b ≠ "" →
      (load_participants store.participants).find?
          (fun p => normalize_name p.name == normalize_name n) = some p →
      p.birthdate ≠ normalize_birthdate b →
      lookup (some n) (some b) store =
        .http 403 (errBody "생년월일이 일치하지 않습니다.")) ∧
    (∀ (n b : String) (p : Participant), n ≠ "" → b ≠ "" →
      (load_participants store.participants).find?
          (fun p => normalize_name p.name == normalize_name n) = some p →
      p.birthdate = normalize_birthdate b →
      store.matchList = [] →
      lookup (some n) (some b) store =
        .http 400 (errBody "아직 매칭이 진행되지 않았습니다.")) ∧
    (∀ (n b : String) (p : Participant) (seed : Option Int) (rng : RandState),
      n ≠ "" → b ≠ "" →
      (load_participants store.participants).find?
          (fun p => normalize_name p.name == normalize_name n) = some p →
      p.birthdate = normalize_birthdate b →
      make_matches (load_participants store.participants) seed rng =
        .ok (load_matches store.matchList) →
      ∃ m, (load_matches store.matchList).find?
          (fun m => normalize_name m.manitto_name == normalize_name n) = some m ∧
        normalize_name m.manitto_name = normalize_name n ∧
        lookup (some n) (some b) store = .http 200 (lookupOkBody m)) := by
  refine ⟨?_, ?_, ?_, ?_, ?_⟩
  · intro nameOpt birthdateOpt h
    rcases h with rfl | rfl | rfl | rfl
    · cases birthdateOpt <;> rfl
    · cases nameOpt <;> rfl
    · cases birthdateOpt with
      | none => rfl
      | some b => simp [lookup]
    · cases nameOpt with
      | none => rfl
      | some n => simp [lookup]
  · intro n b hn hb hfind
    simp only [lookup]
    rw [if_neg (by simp [hn, hb]), hfind]
  · intro n b p hn hb hfind hbd
    simp only [lookup]
    rw [if_neg (by simp [hn, hb]), hfind]
    simp [hbd]
  · intro n b p hn hb hfind hbd hml
    simp only [lookup]
    rw [if_neg (by simp [hn, hb]), hfind]
    simp [hbd, hml, load_matches]
  · intro n b p seed rng hn hb hfind hbd hmk
    have hpmem : p ∈ load_participants store.participants :=
      List.mem_of_find?_eq_some hfind
    have hpname : normalize_name p.name = normalize_name n := by
      have := List.find?_some hfind
      rwa [beq_iff_eq] at this
    obtain ⟨stream, pos, heq⟩ :=
      make_matches_eq (load_participants store.participants) seed rng
    rw [heq] at hmk
    have hperm :=
      (matchGroups_ok_manitto stream _ pos _ (group_by_table_wf _).1 hmk).trans
        ((group_by_table_members_perm _).map participantKey)
    have hkmem : participantKey p ∈ (load_matches store.matchList).map manittoKey :=
      hperm.mem_iff.mpr (List.mem_map_of_mem participantKey hpmem)
    obtain ⟨m, hmmem, hkey⟩ := List.mem_map.mp hkmem
    have hmname : m.manitto_name = p.name := by
      simp only [manittoKey, participantKey, Prod.mk.injEq] at hkey
      exact hkey.2.1
    have hpred : ∃ x ∈ load_matches store.matchList,
        (normalize_name x.manitto_name == normalize_name n) = true :=
      ⟨m, hmmem, by rw [beq_iff_eq, hmname]; exact hpname⟩
    obtain ⟨m', hfindm⟩ := Option.isSome_iff_exists.mp (List.find?_isSome.mpr hpred)
    have hmname' : normalize_name m'.manitto_name = normalize_name n := by
      have := List.find?_some hfindm
      rwa [beq_iff_eq] at this
    have hnonempty : (load_matches store.matchList).isEmpty = false :=
      List.isEmpty_eq_false.mpr (List.ne_nil_of_mem hmmem)
    refine ⟨m', hfindm, hmname', ?_⟩
    simp only [lookup]
    rw [if_neg (by simp [hn, hb]), hfind]
    simp [hbd, hnonempty, hfindm]

/-- C7 witness: concrete store after a real matching run; a missing name gives
400 and correct credentials (with whitespace around the birthdate) give 200
with the assigned recipient. -/
theorem C7_witness :
    (lookup none (some "900101")
        ⟨[⟨1, "Alice", "a@x.com", "900101"⟩, ⟨1, "Bob", "b@x.com", "900202"⟩],
         [⟨1, "Bob", "b@x.com", "Alice", "a@x.com"⟩,
          ⟨1, "Alice", "a@x.com", "Bob", "b@x.com"⟩]⟩ =
      .http 400 (errBody "name과 birthdate(생년월일)가 필요합니다.")) ∧
    ∃ m, (load_matches
        [⟨1, "Bob", "b@x.com", "Alice", "a@x.com"⟩,
         ⟨1, "Alice", "a@x.com", "Bob", "b@x.com"⟩]).find?
          (fun m => normalize_name m.manitto_name == normalize_name "Alice") = some m ∧
      normalize_name m.manitto_name = normalize_name "Alice" ∧
      lookup (some "Alice") (some " 900101 ")
        ⟨[⟨1, "Alice", "a@x.com", "900101"⟩, ⟨1, "Bob", "b@x.com", "900202"⟩],
         [⟨1, "Bob", "b@x.com", "Alice", "a@x.com"⟩,
          ⟨1, "Alice", "a@x.com", "Bob", "b@x.com"⟩]⟩ = .http 200 (lookupOkBody m) :=
  ⟨(C7_lookup_contract
      ⟨[⟨1, "Alice", "a@x.com", "900101"⟩, ⟨1, "Bob", "b@x.com", "900202"⟩],
       [⟨1, "Bob", "b@x.com", "Alice", "a@x.com"⟩,
        ⟨1, "Alice", "a@x.com", "Bob", "b@x.com"⟩]⟩).1 none (some "900101") (Or.inl rfl),
   (C7_lookup_contract
      ⟨[⟨1, "Alice", "a@x.com", "900101"⟩, ⟨1, "Bob", "b@x.com", "900202"⟩],
       [⟨1, "Bob", "b@x.com", "Alice", "a@x.com"⟩,
        ⟨1, "Alice", "a@x.com", "Bob", "b@x.com"⟩]⟩).2.2.2.2 "Alice" " 900101 "
     ⟨1, "Alice", "a@x.com", "900101"⟩ none ⟨fun _ => 0, 0⟩
     (by decide) (by decide) rfl rfl rfl⟩

/-- C8 counterexample: a row whose `table` value is `null` is a malformed row
(its value is not coercible to `int`), yet the handler does not answer 400:
`int(None)` raises `TypeError`, which the `except (KeyError, ValueError)`
clause does not catch, so the exception escapes the handler. -/
theorem C8_counterexample :
    admin_upload
        (.arr [.obj [("table", .null), ("name", .str "a"), ("email", .str "e"),
          ("birthdate", .str "b")]]) ⟨[], []⟩
      = (.crash .typeError, ⟨[], []⟩) ∧
    ∀ body, (Resp.crash .typeError) ≠ Resp.http 400 body :=
  ⟨rfl, fun _ h => Resp.noConfusion h⟩

/-- C8 (amended): a non-array body, a missing field (`KeyError`) or a
non-numeric string (`ValueError`) give a 400 with the store unchanged; a
value whose `int()` coercion raises `TypeError` (null/array/object, or a
non-dict row) makes the exception escape instead of a 400; and in every
outcome other than success the store is unchanged. -/
theorem C8_upload_failures (payload : Json) (store : Store) :
    ((∀ rows, payload ≠ .arr rows) →
      admin_upload payload store =
        (.http 400 (errBody "리스트 형태의 데이터를 보내주세요."), store)) ∧
    (∀ rows k, payload = .arr rows → parseRows rows = .error (.keyError k) →
      admin_upload payload store =
        (.http 400 (errBody ("잘못된 입력 형식: " ++ pyErrText (.keyError k))), store)) ∧
    (∀ rows, payload = .arr rows → parseRows rows = .error .valueError →
      admin_upload payload store =
        (.http 400 (errBody ("잘못된 입력 형식: " ++ pyErrText .valueError)), store)) ∧
    (∀ rows, payload = .arr rows → parseRows rows = .error .typeError →
      admin_upload payload store = (.crash .typeError, store)) ∧
    (∀ resp store', admin_upload payload store = (resp, store') →
      (∀ body, resp ≠ .http 200 body) → store' = store) := by
  refine ⟨?_, ?_, ?_, ?_, ?_⟩
  · intro hne
    cases payload with
    | arr rows => exact absurd rfl (hne rows)
    | null => rfl
    | bool b => rfl
    | int n => rfl
    | str s => rfl
    | obj fields => rfl
  · intro rows k hpay hparse
    subst hpay
    simp [admin_upload, hparse]
  · intro rows hpay hparse
    subst hpay
    simp [admin_upload, hparse]
  · intro rows hpay hparse
    subst hpay
    simp [admin_upload, hparse]
  · intro resp store' h hne
    cases payload with
    | arr rows =>
      cases hp : parseRows rows with
      | ok ps =>
        have h2 : admin_upload (.arr rows) store =
            (.http 200 (.obj [("message", .str "업로드 완료"),
              ("count", .int (ps.length : Int))]), ⟨ps, []⟩) := by
          simp [admin_upload, hp]
        rw [h2, Prod.mk.injEq] at h
        exact absurd h.1.symm (hne _)
      | error e =>
        cases e with
        | keyError k =>
          have h2 : admin_upload (.arr rows) store =
              (.http 400 (errBody ("잘못된 입력 형식: " ++ pyErrText (.keyError k))), store) := by
            simp [admin_upload, hp]
          rw [h2, Prod.mk.injEq] at h
          exact h.2.symm
        | valueError =>
          have h2 : admin_upload (.arr rows) store =
              (.http 400 (errBody ("잘못된 입력 형식: " ++ pyErrText .valueError)), store) := by
            simp [admin_upload, hp]
          rw [h2, Prod.mk.injEq] at h
          exact h.2.symm
        | typeError =>
          have h2 : admin_upload (.arr rows) store = (.crash .typeError, store) := by
            simp [admin_upload, hp]
          rw [h2, Prod.mk.injEq] at h
          exact h.2.symm
    | null => rw [show admin_upload .null store =
        (.http 400 (errBody "리스트 형태의 데이터를 보내주세요."), store) from rfl,
        Prod.mk.injEq] at h; exact h.2.symm
    | bool b => rw [show admin_upload (.bool b) store =
        (.http 400 (errBody "리스트 형태의 데이터를 보내주세요."), store) from rfl,
        Prod.mk.injEq] at h; exact h.2.symm
    | int n => rw [show admin_upload (.int n) store =
        (.http 400 (errBody "리스트 형태의 데이터를 보내주세요."), store) from rfl,
        Prod.mk.injEq] at h; exact h.2.symm
    | str s => rw [show admin_upload (.str s) store =
        (.http 400 (errBody "리스트 형태의 데이터를 보내주세요."), store) from rfl,
        Prod.mk.injEq] at h; exact h.2.symm
    | obj fields => rw [show admin_upload (.obj fields) store =
        (.http 400 (errBody "리스트 형태의 데이터를 보내주세요."), store) from rfl,
        Prod.mk.injEq] at h; exact h.2.symm

/-- C8 witness: the amended theorem at a non-array body, at a row missing its
`birthdate` field, and at a row with a non-numeric `table` string, over a
store with existing content. -/
theorem C8_witness :
    admin_upload (.str "oops") ⟨[⟨1, "A", "a@x", "1"⟩], []⟩ =
      (.http 400 (errBody "리스트 형태의 데이터를 보내주세요."), ⟨[⟨1, "A", "a@x", "1"⟩], []⟩) ∧
    admin_upload (.arr [.obj [("table", .int 1), ("name", .str "A"), ("email", .str "e")]])
        ⟨[⟨1, "A", "a@x", "1"⟩], []⟩ =
      (.http 400 (errBody ("잘못된 입력 형식: " ++ pyErrText (.keyError "birthdate"))),
       ⟨[⟨1, "A", "a@x", "1"⟩], []⟩) ∧
    admin_upload (.arr [.obj [("table", .str "abc"), ("name", .str "A"),
        ("email", .str "e"), ("birthdate", .str "1")]]) ⟨[⟨1, "A", "a@x", "1"⟩], []⟩ =
      (.http 400 (errBody ("잘못된 입력 형식: " ++ pyErrText .valueError)),
       ⟨[⟨1, "A", "a@x", "1"⟩], []⟩) :=
  ⟨(C8_upload_failures (.str "oops") ⟨[⟨1, "A", "a@x", "1"⟩], []⟩).1
      (fun _ h => Json.noConfusion h),
   (C8_upload_failures (.arr [.obj [("table", .int 1), ("name", .str "A"),
        ("email", .str "e")]]) ⟨[⟨1, "A", "a@x", "1"⟩], []⟩).2.1 _ "birthdate" rfl rfl,
   (C8_upload_failures (.arr [.obj [("table", .str "abc"), ("name", .str "A"),
        ("email", .str "e"), ("birthdate", .str "1")]]) ⟨[⟨1, "A", "a@x", "1"⟩], []⟩).2.2.1
      _ rfl rfl⟩

/-! ### Frame property of the heap-level matching -/

theorem Heap.read_write_ne (h : Heap) (r r' : Nat) (v : List Participant)
    (hne : r' ≠ r) : (h.write r v).read r' = h.read r' := by
  unfold Heap.read Heap.write
  rw [List.getD_eq_getElem?_getD, List.getD_eq_getElem?_getD,
    List.getElem?_set_ne (Ne.symm hne)]

theorem Heap.read_alloc (h : Heap) (v : List Participant) (r : Nat)
    (hr : r < h.cells.length) : (h.alloc v).2.read r = h.read r := by
  unfold Heap.read Heap.alloc
  rw [List.getD_eq_getElem?_getD, List.getD_eq_getElem?_getD,
    List.getElem?_append_left hr]

theorem pres_rfl (n : Nat) (h : Heap) (hn : n ≤ h.cells.length) : Pres n h h :=
  ⟨hn, fun _ _ => rfl⟩

theorem pres_write (n : Nat) (h h' : Heap) (r : Nat) (v : List Participant)
    (hr : n ≤ r) (hp : Pres n h h') : Pres n h (h'.write r v) := by
  obtain ⟨hlen, hread⟩ := hp
  refine ⟨by simpa [Heap.write] using hlen, ?_⟩
  intro r' hr'
  rw [Heap.read_write_ne h' r r' v (by omega)]
  exact hread r' hr'

theorem pres_alloc (n : Nat) (h h' : Heap) (v : List Participant)
    (hp : Pres n h h') : Pres n h (h'.alloc v).2 := by
  obtain ⟨hlen, hread⟩ := hp
  refine ⟨by simp [Heap.alloc]; omega, ?_⟩
  intro r' hr'
  rw [Heap.read_alloc h' v r' (by omega)]
  exact hread r' hr'

theorem shuffleGoRef_pres (stream : Nat → Nat) (n : Nat) :
    ∀ (i : Nat) (h h' : Heap) (r : Nat) (pos : Nat), n ≤ r → Pres n h h' →
      Pres n h (shuffleGoRef stream h' r pos i).1 := by
  intro i
  induction i with
  | zero => intro h h' r pos _ hp; exact hp
  | succ k ih =>
    intro h h' r pos hr hp
    exact ih h _ r (pos + 1) hr (pres_write n h h' r _ hr hp)

theorem lookupTable_mem :
    ∀ (grouped : List (Int × Nat)) (k : Int) (r : Nat),
      lookupTable grouped k = some r → (k, r) ∈ grouped := by
  intro grouped
  induction grouped with
  | nil => intro k r h; cases h
  | cons g rest ih =>
    obtain ⟨t, r0⟩ := g
    intro k r h
    unfold lookupTable at h
    by_cases ht : t = k
    · rw [if_pos ht] at h
      cases h
      subst ht
      exact List.mem_cons_self _ _
    · rw [if_neg ht] at h
      exact List.mem_cons_of_mem _ (ih k r h)

theorem insertByTableRef_pres (n : Nat) (h h' : Heap)
    (grouped : List (Int × Nat)) (p : Participant)
    (hp : Pres n h h') (hg : ∀ q ∈ grouped, n ≤ q.2) :
    Pres n h (insertByTableRef h' grouped p).2 ∧
      ∀ q ∈ (insertByTableRef h' grouped p).1, n ≤ q.2 := by
  unfold insertByTableRef
  cases hl : lookupTable grouped p.table with
  | some r =>
    have hr : n ≤ r := hg (p.table, r) (lookupTable_mem grouped p.table r hl)
    exact ⟨pres_write n h h' r _ hr hp, hg⟩
  | none =>
    constructor
    · exact pres_write n h (h'.alloc []).2 (h'.alloc []).1 _ hp.1
        (pres_alloc n h h' [] hp)
    · intro q hq
      rw [List.mem_append] at hq
      rcases hq with hq | hq
      · exact hg q hq
      · rw [List.mem_singleton] at hq
        subst hq
        exact hp.1

theorem groupFold_pres (n : Nat) (h : Heap) :
    ∀ (ps : List Participant) (grouped : List (Int × Nat)) (h' : Heap),
      Pres n h h' → (∀ q ∈ grouped, n ≤ q.2) →
      Pres n h (ps.foldl (fun acc p => insertByTableRef acc.2 acc.1 p) (grouped, h')).2 ∧
        ∀ q ∈ (ps.foldl (fun acc p => insertByTableRef acc.2 acc.1 p) (grouped, h')).1,
          n ≤ q.2 := by
  intro ps
  induction ps with
  | nil => intro grouped h' hp hg; exact ⟨hp, hg⟩
  | cons p rest ih =>
    intro grouped h' hp hg
    rw [List.foldl_cons]
    obtain ⟨hp', hg'⟩ := insertByTableRef_pres n h h' grouped p hp hg
    exact ih _ _ hp' hg'

theorem matchGroupsRef_pres (stream : Nat → Nat) (n : Nat) (h : Heap) :
    ∀ (gs : List (Int × Nat)) (pos : Nat) (h' : Heap), Pres n h h' →
      Pres n h (matchGroupsRef stream h' gs pos).2 := by
  intro gs
  induction gs with
  | nil => intro pos h' hp; exact hp
  | cons g rest ih =>
    obtain ⟨t, mref⟩ := g
    intro pos h' hp
    by_cases hlen : (h'.read mref).length < 2
    · have hcase : (matchGroupsRef stream h' ((t, mref) :: rest) pos).2 = h' := by
        unfold matchGroupsRef
        rw [if_pos hlen]
      rw [hcase]
      exact hp
    · have hp1 : Pres n h (h'.alloc (h'.read mref)).2 := pres_alloc n h h' _ hp
      have hr : n ≤ (h'.alloc (h'.read mref)).1 := hp.1
      have hp2 : Pres n h
          (pyShuffleRef stream (h'.alloc (h'.read mref)).2
            (h'.alloc (h'.read mref)).1 pos).1 :=
        shuffleGoRef_pres stream n _ h _ _ _ hr hp1
      have hp3 := ih (pyShuffleRef stream (h'.alloc (h'.read mref)).2
          (h'.alloc (h'.read mref)).1 pos).2
        (pyShuffleRef stream (h'.alloc (h'.read mref)).2
          (h'.alloc (h'.read mref)).1 pos).1 hp2
      rcases hrec : matchGroupsRef stream
          (pyShuffleRef stream (h'.alloc (h'.read mref)).2
            (h'.alloc (h'.read mref)).1 pos).1 rest
          (pyShuffleRef stream (h'.alloc (h'.read mref)).2
            (h'.alloc (h'.read mref)).1 pos).2 with ⟨res, h3⟩
    -- second component is the recursion's heap in both branches
      have h2nd : (matchGroupsRef stream h' ((t, mref) :: rest) pos).2 = h3 := by
        unfold matchGroupsRef
        rw [if_neg hlen]
        simp only [hrec]
        cases res <;> rfl
      rw [h2nd]
      rw [hrec] at hp3
      exact hp3

/-- C10: the heap-level `make_matches` leaves the participants list object it
was handed untouched — after the call the object holds the same elements in
the same order, because the shuffle only ever mutates the fresh copy made by
`members.copy()` and the group lists are fresh objects as well. -/
theorem C10_input_unmodified (stream : Nat → Nat) (h : Heap) (input : Nat)
    (pos : Nat) (hvalid : input < h.cells.length) :
    ((make_matches_ref stream h input pos).2).read input = h.read input := by
  have h0 : Pres (input + 1) h h := pres_rfl (input + 1) h (by omega)
  have h1 := groupFold_pres (input + 1) h (h.read input) [] h h0 (by simp)
  have h2 := matchGroupsRef_pres stream (input + 1) h
    (groupByTableRef h input).1 pos (groupByTableRef h input).2 h1.1
  exact h2.2 input (by omega)

/-- C10 witness: a concrete two-member heap cell survives the call unchanged. -/
theorem C10_witness :
    ((make_matches_ref (fun _ => 0)
        ⟨[[⟨1, "A", "a@x", "1"⟩, ⟨1, "B", "b@x", "2"⟩]]⟩ 0 0).2).read 0 =
      Heap.read ⟨[[⟨1, "A", "a@x", "1"⟩, ⟨1, "B", "b@x", "2"⟩]]⟩ 0 :=
  C10_input_unmodified (fun _ => 0)
    ⟨[[⟨1, "A", "a@x", "1"⟩, ⟨1, "B", "b@x", "2"⟩]]⟩ 0 0 (by decide)
